import Mathlib

/-!
Shallow embedding of the payment-proration engine of the medkampus design
board server (`src/unnamed/part_000`, route `/api/payments/current-month`,
helper `calculatePaymentDate`, and `DatabaseStorage.getStudentTransferHistory`),
together with the data model of `src/shared/schema.ts`.

Modelling conventions:
* Calendar dates handled by the splitter are day numbers (`Int`), the image of
  JavaScript date-only `Date` values under the days-since-epoch isomorphism;
  `differenceInDays`, `<`, `≤` and `setDate(± 1)` on such values are exactly
  integer operations.
* The billing-cycle resolver works on year/month/day triples (`YMD`) because it
  inspects calendar components; `toDays` is the proleptic-Gregorian day count
  connecting the two views.  `today` is embedded as a calendar date (midnight),
  as in the specification's `resolve(today, paymentDay)` contract.
* JavaScript floating-point money (`parseFloat`, `*`, `/`) is embedded as exact
  rational arithmetic (`ℚ`); the only numeric claim about amounts carries a
  tolerance of 0.01, far above any binary64 rounding error on these inputs.
* `Array.prototype.sort` is stable with a total preorder comparator, hence
  uniquely determined; it is embedded as `List.insertionSort`, which is stable
  for the non-strict comparator used here.
* The JavaScript `Map` keyed by roster coach ids (insertion order = roster
  order) is embedded as an association list built in roster order.
-/

namespace DesignBoard

/-! ## Calendar model (BillingCycleResolver) -/

/-- Gregorian leap-year test, as implemented by the JavaScript `Date` calendar. -/
def isLeap (y : Nat) : Bool :=
  y % 4 == 0 && (y % 100 != 0 || y % 400 == 0)

/-- `if isLeap y then 1 else 0`, as a `Nat`. -/
def leapBit (y : Nat) : Nat := if isLeap y then 1 else 0

/-- Number of days of month `m` (0-based, January = 0) of year `y`;
models `new Date(year, month + 1, 0).getDate()`. -/
def daysInMonth (y m : Nat) : Nat :=
  match m with
  | 0 => 31
  | 1 => 28 + leapBit y
  | 2 => 31
  | 3 => 30
  | 4 => 31
  | 5 => 30
  | 6 => 31
  | 7 => 31
  | 8 => 30
  | 9 => 31
  | 10 => 30
  | _ => 31

/-- Days of year `y` strictly before month `m` (0-based). -/
def daysBeforeMonth (y m : Nat) : Nat :=
  match m with
  | 0 => 0
  | 1 => 31
  | 2 => 59 + leapBit y
  | 3 => 90 + leapBit y
  | 4 => 120 + leapBit y
  | 5 => 151 + leapBit y
  | 6 => 181 + leapBit y
  | 7 => 212 + leapBit y
  | 8 => 243 + leapBit y
  | 9 => 273 + leapBit y
  | 10 => 304 + leapBit y
  | _ => 334 + leapBit y

/-- Number of leap years in `[0, y)` (proleptic Gregorian, year 0 is leap). -/
def leapsUpto (y : Nat) : Nat :=
  ((y + 3) / 4 + (y + 399) / 400) - (y + 99) / 100

/-- Days strictly before January 1 of year `y`, counted from 0000-01-01. -/
def daysBeforeYear (y : Nat) : Nat := 365 * y + leapsUpto y

/-- A calendar date: year, 0-based month (January = 0), 1-based day.
This mirrors the JavaScript `Date` component convention used by the code. -/
structure YMD where
  year : Nat
  month : Nat
  day : Nat
deriving DecidableEq

/-- Day number of a calendar date, counted from 0000-01-01 = 0.  Comparison of
date-only JavaScript `Date` values coincides with comparison of `toDays`. -/
def toDays (d : YMD) : Nat :=
  daysBeforeYear d.year + daysBeforeMonth d.year d.month + (d.day - 1)

/-- A calendar date is valid when its month is in range and its day is in the
month's range. -/
def ValidYMD (d : YMD) : Prop :=
  d.month ≤ 11 ∧ 1 ≤ d.day ∧ d.day ≤ daysInMonth d.year d.month

/-- Embeds the helper `calculatePaymentDate(year, month, day)`:
`new Date(year, month, 1)` (normalising `month ≥ 12` into the next year),
clamp `day` to the last day of that month, `setDate` the clamped day.
Faithful for `day ≥ 1` (the clamped day then stays inside the month). -/
def calculatePaymentDate (year month day : Nat) : YMD :=
  let y := year + month / 12
  let m := month % 12
  let lastDay := daysInMonth y m
  ⟨y, m, min day lastDay⟩

/-- Embeds `date.setDate(date.getDate() + 1)` on a valid date. -/
def nextDay (d : YMD) : YMD :=
  if d.day < daysInMonth d.year d.month then ⟨d.year, d.month, d.day + 1⟩
  else if d.month < 11 then ⟨d.year, d.month + 1, 1⟩
  else ⟨d.year + 1, 0, 1⟩

/-- Embeds lines 595–600: the candidate payment date in `today`'s month,
recomputed in the next month when the candidate is earlier than `today`. -/
def currentPaymentDateOf (today : YMD) (paymentDay : Nat) : YMD :=
  let cand := calculatePaymentDate today.year today.month paymentDay
  if toDays cand < toDays today then
    calculatePaymentDate today.year (today.month + 1) paymentDay
  else cand

/-- Embeds the billing-cycle resolution of `/api/payments/current-month`
(lines 589–613): candidate payment date in `today`'s month, rolled to the next
month when it is earlier than `today`; previous payment date one calendar month
before it (with year rollover at January); cycle start the day after the
previous payment date.  Returns `(cycleStart, cycleEnd)`. -/
def resolveCycle (today : YMD) (paymentDay : Nat) : YMD × YMD :=
  let currentPaymentDate := currentPaymentDateOf today paymentDay
  let payYear := currentPaymentDate.year
  let payMonth := currentPaymentDate.month
  let prevYear := if payMonth = 0 then payYear - 1 else payYear
  let prevMonth := if payMonth = 0 then 11 else payMonth - 1
  let prevPaymentDate := calculatePaymentDate prevYear prevMonth paymentDay
  (nextDay prevPaymentDate, currentPaymentDate)

/-! ## Data model (schema.ts) and splitter (StudentPeriodSplitter) -/

/-- A coach-transfer record (`coachTransfers` table): `transferDate` is the
day number of the recorded calendar date. -/
structure Transfer where
  oldCoachId : String
  newCoachId : String
  transferDate : Int
deriving DecidableEq

/-- A work period attributed to one coach (`periods` array entries);
`stop` embeds the source field `end` (a Lean keyword). -/
structure WorkPeriod where
  coachId : String
  start : Int
  stop : Int
deriving DecidableEq

/-- Comparator key order used by
`sort((a, b) => parseISO(a.transferDate).getTime() - parseISO(b.transferDate).getTime())`. -/
def transferLE (a b : Transfer) : Prop := a.transferDate ≤ b.transferDate

instance : DecidableRel transferLE := fun a b => inferInstanceAs (Decidable (_ ≤ _))

instance : IsTotal Transfer transferLE := ⟨fun a b => Int.le_total _ _⟩

instance : IsTrans Transfer transferLE := ⟨fun _ _ _ h h' => Int.le_trans h h'⟩

/-- Embeds `sortedTransfers`: a stable sort of the retrieved transfer history,
ascending by `transferDate` (ties keep the input order, as JavaScript's stable
`Array.prototype.sort` does). -/
def sortTransfers (ts : List Transfer) : List Transfer :=
  List.insertionSort transferLE ts

/-- Embeds the `coachAtWorkStart` selection (lines 660–678): the latest
transfer strictly before `workStart` gives its `newCoachId`; otherwise the
earliest transfer gives its `oldCoachId`; otherwise the current coach. -/
def coachAtWorkStartOf (currentCoachId : String) (sorted : List Transfer)
    (workStart : Int) : String :=
  let transfersBeforeWorkStart :=
    sorted.filter fun t => decide (t.transferDate < workStart)
  match transfersBeforeWorkStart.getLast? with
  | some t => t.newCoachId
  | none =>
    match sorted.head? with
    | some t => t.oldCoachId
    | none => currentCoachId

/-- Embeds the leading period (lines 699–712): from `workStart` to the day
before the first relevant transfer, clipped to `workEnd`, emitted only when
`workStart` is strictly before the first transfer date. -/
def leadingPeriods (coachAtWorkStart : String) (workStart workEnd : Int) :
    List Transfer → List WorkPeriod
  | [] => []
  | first :: _ =>
    if workStart < first.transferDate then
      let dayBeforeTransfer := first.transferDate - 1
      [⟨coachAtWorkStart, workStart,
        if dayBeforeTransfer < workEnd then dayBeforeTransfer else workEnd⟩]
    else []

/-- Embeds the middle-period loop (lines 714–731): for each consecutive pair of
relevant transfers, a period from the current transfer date to the day before
the next one, clipped to `studentEnd` (the package end, as in the source). -/
def middlePeriods (studentEnd : Int) : List Transfer → List WorkPeriod
  | [] => []
  | [_] => []
  | t :: u :: rest =>
    let dayBeforeNext := u.transferDate - 1
    (if t.transferDate ≤ dayBeforeNext ∧ t.transferDate ≤ studentEnd then
      [⟨t.newCoachId, t.transferDate,
        if dayBeforeNext < studentEnd then dayBeforeNext else studentEnd⟩]
    else []) ++ middlePeriods studentEnd (u :: rest)

/-- Embeds the trailing period (lines 733–743): from the last relevant transfer
date to `workEnd`, emitted when that date is not past `workEnd`. -/
def trailingPeriods (workEnd : Int) : List Transfer → List WorkPeriod
  | [] => []
  | first :: rest =>
    let lastTransfer := rest.getLastD first
    if lastTransfer.transferDate ≤ workEnd then
      [⟨lastTransfer.newCoachId, lastTransfer.transferDate, workEnd⟩]
    else []

/-- Period construction for one student from an already-sorted transfer list
(lines 687–744 of the route). -/
def buildPeriodsFromSorted (currentCoachId : String)
    (studentStart studentEnd cycleStart cycleEnd : Int)
    (sorted : List Transfer) : List WorkPeriod :=
  let workStart := max studentStart cycleStart
  let workEnd := min studentEnd cycleEnd
  if workStart > workEnd then []
  else
    let coachAtWorkStart := coachAtWorkStartOf currentCoachId sorted workStart
    let relevantTransfers := sorted.filter fun t =>
      decide (workStart ≤ t.transferDate ∧ t.transferDate ≤ workEnd)
    if relevantTransfers.isEmpty then [⟨coachAtWorkStart, workStart, workEnd⟩]
    else
      leadingPeriods coachAtWorkStart workStart workEnd relevantTransfers
        ++ middlePeriods studentEnd relevantTransfers
        ++ trailingPeriods workEnd relevantTransfers

/-- Embeds the full per-student splitting (lines 641–744): work window
`[max(packageStart, cycleStart), min(packageEnd, cycleEnd)]`, empty when the
windows do not intersect (`continue`), otherwise the leading/middle/trailing
periods over the sorted relevant transfers. -/
def buildPeriods (currentCoachId : String)
    (studentStart studentEnd cycleStart cycleEnd : Int)
    (transfers : List Transfer) : List WorkPeriod :=
  buildPeriodsFromSorted currentCoachId studentStart studentEnd cycleStart cycleEnd
    (sortTransfers transfers)

/-- Embeds `differenceInDays(period.end, period.start) + 1` (line 751). -/
def daysWorkedOf (p : WorkPeriod) : Int := p.stop - p.start + 1

/-- Embeds `amount = (monthlyFee / 30) * daysWorked` (lines 747, 752). -/
def periodAmount (monthlyFee : ℚ) (p : WorkPeriod) : ℚ :=
  (monthlyFee / 30) * ((daysWorkedOf p : Int) : ℚ)

/-- `covers ws we l` states that `l` is a nonempty list of periods that
partitions the inclusive day interval `[ws, we]` from left to right:
the first period starts at `ws`, each period is nonempty and is immediately
followed by the next, and the last period ends at `we`. -/
def covers (ws we : Int) : List WorkPeriod → Prop
  | [] => False
  | [p] => p.start = ws ∧ p.stop = we ∧ ws ≤ we
  | p :: q :: rest => p.start = ws ∧ ws ≤ p.stop ∧ covers (p.stop + 1) we (q :: rest)


/-! ## Aggregation (PaymentAggregator and orchestration) -/

/-- A student snapshot (`students` table fields used by the payment route);
package dates are day numbers. -/
structure Student where
  id : String
  firstName : String
  lastName : String
  packageStartDate : Int
  packageEndDate : Int
  isActive : Int
deriving DecidableEq

/-- A roster coach with nested active students, as returned by
`storage.getAllCoaches()`. -/
structure Coach where
  id : String
  firstName : String
  lastName : String
  students : List Student
deriving DecidableEq

/-- `PaymentBreakdownItem` of schema.ts; the `amount` string is embedded as
the exact rational it renders. -/
structure BreakdownItem where
  studentId : String
  studentName : String
  amount : ℚ
  daysWorked : Int
deriving DecidableEq

/-- `CoachPaymentSummary` of schema.ts (lines 211–217). -/
structure CoachPaymentSummary where
  coachId : String
  coachName : String
  activeStudentCount : Nat
  totalAmount : ℚ
  breakdown : List BreakdownItem
deriving DecidableEq

/-- One entry of the `coachPayments` map (keyed by coach id, in roster
insertion order). -/
structure CoachAcc where
  coachId : String
  coachName : String
  breakdown : List BreakdownItem
  totalAmount : ℚ
deriving DecidableEq

/-- Embeds the `coachPayments` map initialisation (lines 631–638): one entry
per roster coach, in roster order, with empty breakdown and zero total. -/
def initAcc (coaches : List Coach) : List CoachAcc :=
  coaches.map fun coach =>
    ⟨coach.id, coach.firstName ++ " " ++ coach.lastName, [], 0⟩

/-- Embeds one iteration of the payment loop (lines 749–765): a period with
`start ≤ end` credits a breakdown item and its amount to the accumulator entry
whose key is the period's coach — and is silently skipped when no entry
matches (`if (coachData)`). -/
def creditPeriod (monthlyFee : ℚ) (student : Student) (acc : List CoachAcc)
    (period : WorkPeriod) : List CoachAcc :=
  if period.start ≤ period.stop then
    acc.map fun coachData =>
      if coachData.coachId = period.coachId then
        { coachData with
            breakdown := coachData.breakdown ++
              [⟨student.id, student.firstName ++ " " ++ student.lastName,
                periodAmount monthlyFee period, daysWorkedOf period⟩],
            totalAmount := coachData.totalAmount + periodAmount monthlyFee period }
      else coachData
  else acc

/-- Embeds the per-student step of the payment loop: split into periods, then
credit each period. -/
def processStudent (monthlyFee : ℚ) (cycleStart cycleEnd : Int)
    (acc : List CoachAcc) (entry : Student × String) (transfers : List Transfer) :
    List CoachAcc :=
  (buildPeriods entry.2 entry.1.packageStartDate entry.1.packageEndDate
      cycleStart cycleEnd transfers).foldl (creditPeriod monthlyFee entry.1) acc

/-- Embeds the `allStudents` collection (lines 615–622): active students of
each roster coach, paired with that coach's id. -/
def allStudentsOf (coaches : List Coach) : List (Student × String) :=
  coaches.flatMap fun coach =>
    (coach.students.filter fun s => s.isActive == 1).map fun s => (s, coach.id)

/-- The accumulator state after the whole student loop (lines 640–766). -/
def finalAccOf (coaches : List Coach) (history : String → List Transfer)
    (monthlyFee : ℚ) (cycleStart cycleEnd : Int) : List CoachAcc :=
  (allStudentsOf coaches).foldl
    (fun acc entry =>
      processStudent monthlyFee cycleStart cycleEnd acc entry (history entry.1.id))
    (initAcc coaches)

/-- Embeds the whole `/api/payments/current-month` aggregation (lines
615–782) for a given cycle window: initialise one accumulator per roster
coach, process every student's periods against the per-student transfer
history, then emit summaries only for coaches with a non-empty breakdown,
with `activeStudentCount = breakdown.length`. -/
def computePayments (coaches : List Coach) (history : String → List Transfer)
    (monthlyFee : ℚ) (cycleStart cycleEnd : Int) : List CoachPaymentSummary :=
  ((finalAccOf coaches history monthlyFee cycleStart cycleEnd).filter
      fun coachData => decide (coachData.breakdown.length > 0)).map
    fun coachData =>
      ⟨coachData.coachId, coachData.coachName, coachData.breakdown.length,
        coachData.totalAmount, coachData.breakdown⟩

instance (d : YMD) : Decidable (ValidYMD d) := by
  unfold ValidYMD; infer_instance

/-! ## Calendar arithmetic lemmas -/

lemma leapBit_le_one (y : Nat) : leapBit y ≤ 1 := by
  unfold leapBit; split <;> omega

lemma leapBit_eq (y : Nat) :
    leapBit y = if y % 4 = 0 ∧ (y % 100 ≠ 0 ∨ y % 400 = 0) then 1 else 0 := by
  unfold leapBit isLeap
  by_cases h4 : y % 4 = 0 <;> by_cases h100 : y % 100 = 0 <;> by_cases h400 : y % 400 = 0 <;>
    simp [h4, h100, h400]

lemma leapsUpto_succ (y : Nat) : leapsUpto (y + 1) = leapsUpto y + leapBit y := by
  rw [leapBit_eq]; unfold leapsUpto
  split
  · omega
  · omega

lemma daysBeforeMonth_succ (y m : Nat) (hm : m ≤ 10) :
    daysBeforeMonth y (m + 1) = daysBeforeMonth y m + daysInMonth y m := by
  interval_cases m <;> simp [daysBeforeMonth, daysInMonth] <;> omega

lemma daysBeforeYear_succ (y : Nat) :
    daysBeforeYear (y + 1) = daysBeforeYear y + 365 + leapBit y := by
  unfold daysBeforeYear; rw [leapsUpto_succ]; ring

lemma daysInMonth_pos (y m : Nat) : 1 ≤ daysInMonth y m := by
  unfold daysInMonth
  split <;> omega

lemma daysInMonth_le (y m : Nat) : daysInMonth y m ≤ 31 := by
  have := leapBit_le_one y
  unfold daysInMonth
  split <;> omega

lemma toDays_nextDay (d : YMD) (hd : ValidYMD d) : toDays (nextDay d) = toDays d + 1 := by
  obtain ⟨hm, hd1, hd2⟩ := hd
  unfold nextDay
  split
  · unfold toDays; simp only; omega
  · rename_i h1
    have hday : d.day = daysInMonth d.year d.month := le_antisymm hd2 (not_lt.mp h1)
    split
    · rename_i h2
      have hstep := daysBeforeMonth_succ d.year d.month (by omega)
      unfold toDays; simp only
      have := daysInMonth_pos d.year d.month
      omega
    · rename_i h2
      have hm11 : d.month = 11 := by omega
      have hstep := daysBeforeYear_succ d.year
      unfold toDays; simp only
      rw [hm11] at hday ⊢
      have hb11 : daysBeforeMonth d.year 11 = 334 + leapBit d.year := rfl
      have hb0 : daysBeforeMonth (d.year + 1) 0 = 0 := rfl
      have hido : daysInMonth d.year 11 = 31 := rfl
      omega

/-- The clamped payment date of a month is exactly one calendar month after the
clamped payment date of the previous month (as resolved by the code's
`prevYear`/`prevMonth` computation), and the day-count gap is 28–31 days. -/
lemma paymentDate_gap (py pm d pY pM : Nat) (hpy : 1 ≤ py) (hpm : pm ≤ 11)
    (hd1 : 1 ≤ d) (hd2 : d ≤ 31)
    (hY : pY = if pm = 0 then py - 1 else py)
    (hM : pM = if pm = 0 then 11 else pm - 1) :
    ∃ len, 28 ≤ len ∧ len ≤ 31 ∧
      toDays ⟨py, pm, min d (daysInMonth py pm)⟩ =
        toDays ⟨pY, pM, min d (daysInMonth pY pM)⟩ + len := by
  by_cases h0 : pm = 0
  · subst h0
    rw [if_pos rfl] at hY
    rw [if_pos rfl] at hM
    subst hY; subst hM
    obtain ⟨py', rfl⟩ : ∃ py', py = py' + 1 := ⟨py - 1, by omega⟩
    refine ⟨31, by omega, by omega, ?_⟩
    show daysBeforeYear (py' + 1) + daysBeforeMonth (py' + 1) 0
        + (min d (daysInMonth (py' + 1) 0) - 1)
      = daysBeforeYear (py' + 1 - 1) + daysBeforeMonth (py' + 1 - 1) 11
        + (min d (daysInMonth (py' + 1 - 1) 11) - 1) + 31
    have hstep := daysBeforeYear_succ py'
    have hb11 : daysBeforeMonth py' 11 = 334 + leapBit py' := rfl
    have hb0 : daysBeforeMonth (py' + 1) 0 = 0 := rfl
    have hi11 : daysInMonth py' 11 = 31 := rfl
    have hi0 : daysInMonth (py' + 1) 0 = 31 := rfl
    simp only [Nat.add_sub_cancel]
    omega
  · rw [if_neg h0] at hY
    rw [if_neg h0] at hM
    subst pY; subst pM
    obtain ⟨pm', rfl⟩ : ∃ pm', pm = pm' + 1 := ⟨pm - 1, by omega⟩
    simp only [Nat.add_sub_cancel]
    have hstep := daysBeforeMonth_succ py pm' (by omega)
    have hpm' : pm' ≤ 10 := by omega
    refine ⟨daysInMonth py pm' + min d (daysInMonth py (pm' + 1))
      - min d (daysInMonth py pm'), ?_, ?_, ?_⟩
    · have hb := leapBit_le_one py
      interval_cases pm' <;> simp [daysInMonth] at * <;> omega
    · have hb := leapBit_le_one py
      interval_cases pm' <;> simp [daysInMonth] at * <;> omega
    · show daysBeforeYear py + daysBeforeMonth py (pm' + 1)
          + (min d (daysInMonth py (pm' + 1)) - 1)
        = daysBeforeYear py + daysBeforeMonth py pm'
          + (min d (daysInMonth py pm') - 1) + _
      have h1 := daysInMonth_pos py pm'
      have h2 := daysInMonth_pos py (pm' + 1)
      omega

lemma calculatePaymentDate_eq (a b d : Nat) :
    calculatePaymentDate a b d =
      ⟨a + b / 12, b % 12, min d (daysInMonth (a + b / 12) (b % 12))⟩ := rfl

lemma calculatePaymentDate_valid (a b d : Nat) (hd1 : 1 ≤ d) :
    ValidYMD (calculatePaymentDate a b d) := by
  rw [calculatePaymentDate_eq]
  refine ⟨?_, ?_, ?_⟩
  · show b % 12 ≤ 11
    omega
  · show 1 ≤ min d (daysInMonth (a + b / 12) (b % 12))
    have := daysInMonth_pos (a + b / 12) (b % 12)
    omega
  · show min d (daysInMonth (a + b / 12) (b % 12)) ≤ daysInMonth (a + b / 12) (b % 12)
    omega

lemma calculatePaymentDate_of_le (a b d : Nat) (hb : b ≤ 11) :
    calculatePaymentDate a b d = ⟨a, b, min d (daysInMonth a b)⟩ := by
  rw [calculatePaymentDate_eq]
  have h1 : b / 12 = 0 := Nat.div_eq_of_lt (by omega)
  have h2 : b % 12 = b := Nat.mod_eq_of_lt (by omega)
  rw [h1, h2, Nat.add_zero]

/-- The gap, in days, between a clamped payment date and the clamped payment
date of the preceding calendar month (as selected by the code's
`prevYear`/`prevMonth` computation) is 28–31 days. -/
lemma resolveGap (Y M d : Nat) (hY : 1 ≤ Y) (hd1 : 1 ≤ d) (hd2 : d ≤ 31) :
    ∃ len, 28 ≤ len ∧ len ≤ 31 ∧
      toDays (calculatePaymentDate Y M d) =
        toDays (calculatePaymentDate
          (if (calculatePaymentDate Y M d).month = 0
            then (calculatePaymentDate Y M d).year - 1
            else (calculatePaymentDate Y M d).year)
          (if (calculatePaymentDate Y M d).month = 0 then 11
            else (calculatePaymentDate Y M d).month - 1) d) + len := by
  simp only [calculatePaymentDate_eq]
  have hpm11 : M % 12 ≤ 11 := by omega
  have hM' : (if M % 12 = 0 then 11 else M % 12 - 1) ≤ 11 := by split <;> omega
  have hmod : (if M % 12 = 0 then 11 else M % 12 - 1) % 12
      = (if M % 12 = 0 then 11 else M % 12 - 1) := Nat.mod_eq_of_lt (by omega)
  have hdiv : (if M % 12 = 0 then 11 else M % 12 - 1) / 12 = 0 :=
    Nat.div_eq_of_lt (by omega)
  rw [hmod, hdiv, Nat.add_zero]
  exact paymentDate_gap (Y + M / 12) (M % 12) d _ _ (by omega) hpm11 hd1 hd2 rfl rfl

lemma resolveCycle_fst (today : YMD) (paymentDay : Nat) :
    (resolveCycle today paymentDay).1 =
      nextDay (calculatePaymentDate
        (if ((resolveCycle today paymentDay).2).month = 0
          then ((resolveCycle today paymentDay).2).year - 1
          else ((resolveCycle today paymentDay).2).year)
        (if ((resolveCycle today paymentDay).2).month = 0 then 11
          else ((resolveCycle today paymentDay).2).month - 1) paymentDay) := rfl

lemma resolveCycle_snd (today : YMD) (paymentDay : Nat) :
    (resolveCycle today paymentDay).2 = currentPaymentDateOf today paymentDay := rfl

lemma currentPaymentDateOf_cases (today : YMD) (paymentDay : Nat) (hm : today.month ≤ 11) :
    ∃ M, M ≤ 12 ∧
      currentPaymentDateOf today paymentDay = calculatePaymentDate today.year M paymentDay := by
  unfold currentPaymentDateOf
  by_cases hroll : toDays (calculatePaymentDate today.year today.month paymentDay)
      < toDays today
  · exact ⟨today.month + 1, by omega, by rw [if_pos hroll]⟩
  · exact ⟨today.month, by omega, by rw [if_neg hroll]⟩

/-- C7: for every valid `today` (proleptic Gregorian, year ≥ 1; the source's
`new Date()` is embedded as a calendar date) and every `paymentDay ∈ [1, 31]`,
the resolved cycle satisfies: `cycleEnd` is the `paymentDay` clamped to the
last valid day of its month, rolled to the next month when the current month's
clamped candidate is earlier than `today`; `cycleStart` is the analogously
clamped payment date of the previous calendar month (with year rollover) plus
one day; `cycleStart ≤ cycleEnd`; the cycle length is 28–31 days; and
`resolve(today = 2024-03-15, paymentDay = 28)` yields
`cycleEnd = 2024-03-28`, `cycleStart = 2024-02-29`. -/
theorem claim_C7_billing_cycle (today : YMD) (paymentDay : Nat)
    (ht : ValidYMD today) (hy : 1 ≤ today.year)
    (hp1 : 1 ≤ paymentDay) (hp2 : paymentDay ≤ 31) :
    ((resolveCycle today paymentDay).2 =
        if toDays (calculatePaymentDate today.year today.month paymentDay) < toDays today
        then calculatePaymentDate today.year (today.month + 1) paymentDay
        else calculatePaymentDate today.year today.month paymentDay) ∧
    ((resolveCycle today paymentDay).2).day =
        min paymentDay (daysInMonth ((resolveCycle today paymentDay).2).year
          ((resolveCycle today paymentDay).2).month) ∧
    ((resolveCycle today paymentDay).1 =
        nextDay (calculatePaymentDate
          (if ((resolveCycle today paymentDay).2).month = 0
            then ((resolveCycle today paymentDay).2).year - 1
            else ((resolveCycle today paymentDay).2).year)
          (if ((resolveCycle today paymentDay).2).month = 0 then 11
            else ((resolveCycle today paymentDay).2).month - 1) paymentDay)) ∧
    toDays (resolveCycle today paymentDay).1 ≤ toDays (resolveCycle today paymentDay).2 ∧
    (∃ len, 28 ≤ len ∧ len ≤ 31 ∧
      toDays (resolveCycle today paymentDay).2 + 1 =
        toDays (resolveCycle today paymentDay).1 + len) ∧
    resolveCycle ⟨2024, 2, 15⟩ 28 = (⟨2024, 1, 29⟩, ⟨2024, 2, 28⟩) := by
  obtain ⟨hm, _, _⟩ := ht
  obtain ⟨M, hM12, hce⟩ := currentPaymentDateOf_cases today paymentDay hm
  have hce' : (resolveCycle today paymentDay).2 = calculatePaymentDate today.year M paymentDay :=
    (resolveCycle_snd today paymentDay).trans hce
  have hgap := resolveGap today.year M paymentDay hy hp1 hp2
  obtain ⟨len, hlen1, hlen2, hlen3⟩ := hgap
  have hfst : (resolveCycle today paymentDay).1 =
      nextDay (calculatePaymentDate
        (if (calculatePaymentDate today.year M paymentDay).month = 0
          then (calculatePaymentDate today.year M paymentDay).year - 1
          else (calculatePaymentDate today.year M paymentDay).year)
        (if (calculatePaymentDate today.year M paymentDay).month = 0 then 11
          else (calculatePaymentDate today.year M paymentDay).month - 1) paymentDay) := by
    rw [resolveCycle_fst, hce']
  have hppvalid := calculatePaymentDate_valid
      (if (calculatePaymentDate today.year M paymentDay).month = 0
        then (calculatePaymentDate today.year M paymentDay).year - 1
        else (calculatePaymentDate today.year M paymentDay).year)
      (if (calculatePaymentDate today.year M paymentDay).month = 0 then 11
        else (calculatePaymentDate today.year M paymentDay).month - 1) paymentDay hp1
  have hnext := toDays_nextDay _ hppvalid
  have hfstDays : toDays (resolveCycle today paymentDay).1 =
      toDays (calculatePaymentDate
        (if (calculatePaymentDate today.year M paymentDay).month = 0
          then (calculatePaymentDate today.year M paymentDay).year - 1
          else (calculatePaymentDate today.year M paymentDay).year)
        (if (calculatePaymentDate today.year M paymentDay).month = 0 then 11
          else (calculatePaymentDate today.year M paymentDay).month - 1) paymentDay) + 1 := by
    rw [hfst, hnext]
  refine ⟨resolveCycle_snd today paymentDay, ?_, resolveCycle_fst today paymentDay, ?_, ?_, by decide⟩
  · rw [hce', calculatePaymentDate_eq]
  · rw [hfstDays, hce']
    omega
  · refine ⟨len, hlen1, hlen2, ?_⟩
    rw [hfstDays, hce']
    omega

/-- Witness for C7 at `today = 2024-03-15`, `paymentDay = 28`. -/
theorem claim_C7_billing_cycle_witness :
    ValidYMD ⟨2024, 2, 15⟩ ∧
    toDays (resolveCycle ⟨2024, 2, 15⟩ 28).1 ≤ toDays (resolveCycle ⟨2024, 2, 15⟩ 28).2 :=
  ⟨by decide, ((claim_C7_billing_cycle ⟨2024, 2, 15⟩ 28 (by decide) (by decide)
    (by decide) (by decide)).2.2.2).1⟩

/-- C3 counterexample: at `today = 2024-03-29`, `paymentDay = 28`, the code
produces `cycleStart = 2024-03-29` (the day after the previous payment date
2024-03-28), not `2024-03-28` as the claim states. -/
theorem claim_C3_counterexample :
    (resolveCycle ⟨2024, 2, 29⟩ 28).2 = ⟨2024, 3, 28⟩ ∧
    (resolveCycle ⟨2024, 2, 29⟩ 28).1 ≠ ⟨2024, 2, 28⟩ := by
  decide

/-- C3 (amended): `resolve(today = 2024-03-29, paymentDay = 28)` produces
`cycleEnd = 2024-04-28` and `cycleStart = 2024-03-29` (the candidate rolls to
the next month because the 28th has already passed, and the cycle starts the
day after the previous payment date 2024-03-28). -/
theorem claim_C3_amended :
    resolveCycle ⟨2024, 2, 29⟩ 28 = (⟨2024, 2, 29⟩, ⟨2024, 3, 28⟩) := by
  decide

/-! ## Splitter invariants: the produced periods form a contiguous chain -/

lemma covers_ne_nil {ws we : Int} : ∀ {l : List WorkPeriod}, covers ws we l → l ≠ []
  | [], h => h.elim
  | _ :: _, _ => List.cons_ne_nil _ _

lemma covers_cons {ws we : Int} {p : WorkPeriod} {tl : List WorkPeriod}
    (htl : tl ≠ []) (h1 : p.start = ws) (h2 : ws ≤ p.stop)
    (h3 : covers (p.stop + 1) we tl) : covers ws we (p :: tl) := by
  cases tl with
  | nil => exact absurd rfl htl
  | cons q rest => exact ⟨h1, h2, h3⟩

lemma covers_le : ∀ {l : List WorkPeriod} {ws we : Int}, covers ws we l → ws ≤ we
  | [], _, _, h => h.elim
  | [p], _, _, h => h.2.2
  | p :: q :: rest, ws, we, h => by
    obtain ⟨h1, h2, h3⟩ := h
    have := covers_le h3
    omega

lemma covers_bounds : ∀ {l : List WorkPeriod} {ws we : Int}, covers ws we l →
    ∀ p ∈ l, ws ≤ p.start ∧ p.start ≤ p.stop ∧ p.stop ≤ we
  | [], _, _, h => h.elim
  | [q], ws, we, h => by
    obtain ⟨h1, h2, h3⟩ := h
    intro p hp
    rw [List.mem_singleton] at hp
    subst hp
    omega
  | q :: r :: rest, ws, we, h => by
    obtain ⟨h1, h2, h3⟩ := h
    have htail := covers_bounds h3
    have hwe : q.stop + 1 ≤ we := covers_le h3
    intro p hp
    rcases List.mem_cons.mp hp with rfl | hp'
    · omega
    · have := htail p hp'
      omega

lemma covers_pairwise : ∀ {l : List WorkPeriod} {ws we : Int}, covers ws we l →
    l.Pairwise fun p q => p.stop < q.start
  | [], _, _, h => h.elim
  | [q], _, _, _ => List.pairwise_singleton _ q
  | q :: r :: rest, ws, we, h => by
    obtain ⟨h1, h2, h3⟩ := h
    refine List.Pairwise.cons ?_ (covers_pairwise h3)
    intro p hp
    have := covers_bounds h3 p hp
    omega

lemma covers_mem_iff : ∀ {l : List WorkPeriod} {ws we : Int}, covers ws we l →
    ∀ d : Int, (ws ≤ d ∧ d ≤ we) ↔ ∃ p ∈ l, p.start ≤ d ∧ d ≤ p.stop
  | [], _, _, h => h.elim
  | [q], ws, we, h => by
    obtain ⟨h1, h2, h3⟩ := h
    intro d
    constructor
    · rintro ⟨hd1, hd2⟩
      exact ⟨q, List.mem_singleton.mpr rfl, by omega, by omega⟩
    · rintro ⟨p, hp, hd1, hd2⟩
      rw [List.mem_singleton] at hp
      subst hp
      omega
  | q :: r :: rest, ws, we, h => by
    obtain ⟨h1, h2, h3⟩ := h
    have hIH := covers_mem_iff h3
    have hwe : q.stop + 1 ≤ we := covers_le h3
    intro d
    constructor
    · rintro ⟨hd1, hd2⟩
      by_cases hd : d ≤ q.stop
      · exact ⟨q, List.mem_cons_self q _, by omega, hd⟩
      · obtain ⟨p, hp, h5, h6⟩ := (hIH d).mp ⟨by omega, hd2⟩
        exact ⟨p, List.mem_cons_of_mem _ hp, h5, h6⟩
    · rintro ⟨p, hp, hd1, hd2⟩
      rcases List.mem_cons.mp hp with rfl | hp'
      · omega
      · have := (hIH d).mpr ⟨p, hp', hd1, hd2⟩
        omega

lemma covers_sum : ∀ {l : List WorkPeriod} {ws we : Int}, covers ws we l →
    (l.map daysWorkedOf).sum = we - ws + 1
  | [], _, _, h => h.elim
  | [q], ws, we, h => by
    obtain ⟨h1, h2, h3⟩ := h
    simp only [List.map_cons, List.map_nil, List.sum_cons, List.sum_nil, daysWorkedOf]
    omega
  | q :: r :: rest, ws, we, h => by
    obtain ⟨h1, h2, h3⟩ := h
    have hIH := covers_sum h3
    simp only [List.map_cons, List.sum_cons, daysWorkedOf] at hIH ⊢
    omega

lemma leadingPeriods_cons (coachAtWorkStart : String) (workStart workEnd : Int)
    (first : Transfer) (rest : List Transfer) :
    leadingPeriods coachAtWorkStart workStart workEnd (first :: rest) =
      if workStart < first.transferDate then
        [⟨coachAtWorkStart, workStart,
          if first.transferDate - 1 < workEnd then first.transferDate - 1 else workEnd⟩]
      else [] := rfl

lemma trailingPeriods_cons_cons (workEnd : Int) (a b : Transfer) (l : List Transfer) :
    trailingPeriods workEnd (a :: b :: l) = trailingPeriods workEnd (b :: l) := by
  unfold trailingPeriods
  dsimp only
  rw [List.getLastD_cons]

/-- The middle periods of a sorted relevant-transfer list, followed by the
trailing period, partition the interval from the first transfer date to
`workEnd`. -/
lemma covers_middle_trailing (studentEnd workEnd : Int) :
    ∀ (rest : List Transfer) (t : Transfer),
      List.Pairwise transferLE (t :: rest) →
      (∀ u ∈ t :: rest, u.transferDate ≤ workEnd) →
      workEnd ≤ studentEnd →
      covers t.transferDate workEnd
        (middlePeriods studentEnd (t :: rest) ++ trailingPeriods workEnd (t :: rest))
  | [], t, _, hle, _ => by
    have ht : t.transferDate ≤ workEnd := hle t (List.mem_singleton.mpr rfl)
    unfold middlePeriods trailingPeriods
    simp only [List.getLastD, List.nil_append]
    rw [if_pos ht]
    exact ⟨rfl, rfl, ht⟩
  | u :: rest', t, hsorted, hle, hwe => by
    have htu : transferLE t u := (List.pairwise_cons.mp hsorted).1 u (List.mem_cons_self u rest')
    have hIH := covers_middle_trailing studentEnd workEnd rest' u
      (List.pairwise_cons.mp hsorted).2
      (fun v hv => hle v (List.mem_cons_of_mem t hv)) hwe
    have hu : u.transferDate ≤ workEnd := hle u (List.mem_cons_of_mem t (List.mem_cons_self u rest'))
    have ht : t.transferDate ≤ workEnd := hle t (List.mem_cons_self t (u :: rest'))
    rw [trailingPeriods_cons_cons]
    show covers t.transferDate workEnd
      (((if t.transferDate ≤ u.transferDate - 1 ∧ t.transferDate ≤ studentEnd then
          [⟨t.newCoachId, t.transferDate,
            if u.transferDate - 1 < studentEnd then u.transferDate - 1 else studentEnd⟩]
        else []) ++ middlePeriods studentEnd (u :: rest'))
        ++ trailingPeriods workEnd (u :: rest'))
    by_cases hlt : t.transferDate ≤ u.transferDate - 1
    · rw [if_pos ⟨hlt, by omega⟩, if_pos (by omega : u.transferDate - 1 < studentEnd)]
      rw [List.cons_append, List.nil_append]
      refine covers_cons ?_ rfl hlt ?_
      · exact covers_ne_nil hIH
      · show covers (u.transferDate - 1 + 1) workEnd _
        have : u.transferDate - 1 + 1 = u.transferDate := by omega
        rw [this]
        exact hIH
    · have heq : t.transferDate = u.transferDate := by
        unfold transferLE at htu
        omega
      rw [if_neg (fun hc => hlt hc.1), List.nil_append, heq]
      exact hIH

/-- For an intersecting work window, the list of periods produced for one
student partitions `[workStart, workEnd]`. -/
lemma covers_buildPeriodsFromSorted (c : String) (sS sE cS cE : Int)
    (sorted : List Transfer)
    (hsorted : List.Pairwise transferLE sorted)
    (h : max sS cS ≤ min sE cE) :
    covers (max sS cS) (min sE cE) (buildPeriodsFromSorted c sS sE cS cE sorted) := by
  unfold buildPeriodsFromSorted
  rw [if_neg (by omega : ¬ max sS cS > min sE cE)]
  have hrelmem : ∀ u ∈ sorted.filter (fun t =>
      decide (max sS cS ≤ t.transferDate ∧ t.transferDate ≤ min sE cE)),
      max sS cS ≤ u.transferDate ∧ u.transferDate ≤ min sE cE := by
    intro u hu
    have := (List.mem_filter.mp hu).2
    simpa using this
  have hrelsorted : List.Pairwise transferLE (sorted.filter (fun t =>
      decide (max sS cS ≤ t.transferDate ∧ t.transferDate ≤ min sE cE))) :=
    List.Pairwise.filter _ hsorted
  cases hrel : sorted.filter (fun t =>
      decide (max sS cS ≤ t.transferDate ∧ t.transferDate ≤ min sE cE)) with
  | nil =>
    show covers (max sS cS) (min sE cE)
      [⟨coachAtWorkStartOf c sorted (max sS cS), max sS cS, min sE cE⟩]
    exact ⟨rfl, rfl, h⟩
  | cons first rest =>
    rw [hrel] at hrelmem hrelsorted
    have hmt := covers_middle_trailing sE (min sE cE) rest first hrelsorted
      (fun u hu => (hrelmem u hu).2) (by omega)
    have hfirst := hrelmem first (List.mem_cons_self first rest)
    simp only [List.isEmpty_cons, Bool.false_eq_true, if_false]
    rw [leadingPeriods_cons]
    by_cases hws : max sS cS < first.transferDate
    · rw [if_pos hws, if_pos (by omega : first.transferDate - 1 < min sE cE)]
      rw [List.cons_append, List.nil_append]
      refine covers_cons ?_ rfl ?_ ?_
      · exact covers_ne_nil hmt
      · show max sS cS ≤ first.transferDate - 1
        omega
      · show covers (first.transferDate - 1 + 1) (min sE cE) _
        have : first.transferDate - 1 + 1 = first.transferDate := by omega
        rw [this]
        exact hmt
    · have heq : max sS cS = first.transferDate := by omega
      rw [if_neg hws, List.nil_append, heq]
      exact hmt

lemma covers_buildPeriods (c : String) (sS sE cS cE : Int) (transfers : List Transfer)
    (h : max sS cS ≤ min sE cE) :
    covers (max sS cS) (min sE cE) (buildPeriods c sS sE cS cE transfers) :=
  covers_buildPeriodsFromSorted c sS sE cS cE (sortTransfers transfers)
    (List.sorted_insertionSort transferLE transfers) h

/-- C1: for every student whose package window intersects the cycle window,
the produced WorkPeriods are pairwise non-overlapping and ordered by start
date, each lies inside `[workStart, workEnd]` with `start ≤ stop`, their union
is exactly `[workStart, workEnd]`, and the `daysWorked` values
(`stop − start + 1`) sum to the inclusive day count of the window. -/
theorem claim_C1_split_invariants (currentCoachId : String)
    (sS sE cS cE : Int) (transfers : List Transfer)
    (h : max sS cS ≤ min sE cE) :
    (buildPeriods currentCoachId sS sE cS cE transfers).Pairwise
        (fun p q => p.stop < q.start) ∧
    (∀ p ∈ buildPeriods currentCoachId sS sE cS cE transfers,
        max sS cS ≤ p.start ∧ p.start ≤ p.stop ∧ p.stop ≤ min sE cE) ∧
    (∀ d : Int, (max sS cS ≤ d ∧ d ≤ min sE cE) ↔
        ∃ p ∈ buildPeriods currentCoachId sS sE cS cE transfers,
          p.start ≤ d ∧ d ≤ p.stop) ∧
    ((buildPeriods currentCoachId sS sE cS cE transfers).map daysWorkedOf).sum =
        min sE cE - max sS cS + 1 := by
  have hc := covers_buildPeriods currentCoachId sS sE cS cE transfers h
  exact ⟨covers_pairwise hc, covers_bounds hc, covers_mem_iff hc, covers_sum hc⟩

/-- Witness for C1 with a concrete student, cycle `[0, 29]` and a single
transfer on day 10. -/
theorem claim_C1_split_invariants_witness :
    (max (0 : Int) 0 ≤ min 29 29) ∧
    ((buildPeriods "A" 0 29 0 29 [⟨"A", "B", 10⟩]).map daysWorkedOf).sum =
      min (29 : Int) 29 - max 0 0 + 1 :=
  ⟨by decide,
    (claim_C1_split_invariants "A" 0 29 0 29 [⟨"A", "B", 10⟩] (by decide)).2.2.2⟩

/-! ## Single-transfer and no-transfer evaluations -/

lemma sortTransfers_single (t : Transfer) : sortTransfers [t] = [t] := rfl

lemma coachAtWorkStartOf_single_after (c : String) (t : Transfer) (ws : Int)
    (h : ¬ t.transferDate < ws) :
    coachAtWorkStartOf c [t] ws = t.oldCoachId := by
  unfold coachAtWorkStartOf
  simp [h]

/-- Evaluation of the splitter on a single relevant transfer: a leading period
for the old coach when the window starts strictly before the transfer, then
the trailing period for the new coach. -/
lemma buildPeriods_single (c : String) (sS sE cS cE : Int) (t : Transfer)
    (h1 : max sS cS ≤ t.transferDate) (h2 : t.transferDate ≤ min sE cE) :
    buildPeriods c sS sE cS cE [t] =
      (if max sS cS < t.transferDate then
        [⟨t.oldCoachId, max sS cS, t.transferDate - 1⟩] else [])
      ++ [⟨t.newCoachId, t.transferDate, min sE cE⟩] := by
  unfold buildPeriods
  rw [sortTransfers_single]
  unfold buildPeriodsFromSorted
  rw [if_neg (by omega : ¬ max sS cS > min sE cE)]
  have hfil : List.filter (fun u =>
      decide (max sS cS ≤ u.transferDate ∧ u.transferDate ≤ min sE cE)) [t] = [t] := by
    simp only [List.filter_cons, List.filter_nil, decide_eq_true_eq]
    rw [if_pos ⟨h1, h2⟩]
  simp only [hfil, List.isEmpty_cons, Bool.false_eq_true, if_false]
  rw [coachAtWorkStartOf_single_after c t (max sS cS) (by omega), leadingPeriods_cons]
  have hmid : middlePeriods sE [t] = [] := rfl
  have htrail : trailingPeriods (min sE cE) [t] =
      if t.transferDate ≤ min sE cE then
        [⟨t.newCoachId, t.transferDate, min sE cE⟩] else [] := rfl
  rw [hmid, htrail, List.append_nil, if_pos h2,
    if_pos (by omega : t.transferDate - 1 < min sE cE)]

/-- C6: the transfer date is the new coach's first owned day.  For a single
transfer strictly inside the work window, the old coach's period ends the day
before the transfer and the new coach's period starts on it, with the two
periods' `daysWorked` summing to the whole window; and for a transfer dated
exactly on `cycleStart` (student active from `cycleStart`), the whole window is
attributed to `newCoachId` and no period is owned by `oldCoachId`. -/
theorem claim_C6_transfer_date_ownership
    (c : String) (sS sE cS cE : Int) (t : Transfer)
    (hA1 : max sS cS < t.transferDate) (hA2 : t.transferDate < min sE cE)
    (d : String) (sS' sE' cS' cE' : Int) (u : Transfer)
    (hB1 : sS' ≤ cS') (hB2 : u.transferDate = cS') (hB3 : cS' ≤ min sE' cE')
    (hB4 : u.oldCoachId ≠ u.newCoachId) :
    (buildPeriods c sS sE cS cE [t] =
        [⟨t.oldCoachId, max sS cS, t.transferDate - 1⟩,
         ⟨t.newCoachId, t.transferDate, min sE cE⟩] ∧
      daysWorkedOf ⟨t.oldCoachId, max sS cS, t.transferDate - 1⟩ +
        daysWorkedOf ⟨t.newCoachId, t.transferDate, min sE cE⟩ =
          min sE cE - max sS cS + 1) ∧
    (buildPeriods d sS' sE' cS' cE' [u] = [⟨u.newCoachId, cS', min sE' cE'⟩] ∧
      ∀ p ∈ buildPeriods d sS' sE' cS' cE' [u], p.coachId ≠ u.oldCoachId) := by
  have hBmax : max sS' cS' = cS' := max_eq_right hB1
  have hBeq : buildPeriods d sS' sE' cS' cE' [u] = [⟨u.newCoachId, cS', min sE' cE'⟩] := by
    rw [buildPeriods_single d sS' sE' cS' cE' u (by omega) (by omega)]
    rw [if_neg (by omega : ¬ max sS' cS' < u.transferDate), List.nil_append, hB2]
  refine ⟨⟨?_, ?_⟩, hBeq, ?_⟩
  · rw [buildPeriods_single c sS sE cS cE t (by omega) (by omega), if_pos hA1]
    rfl
  · unfold daysWorkedOf
    simp only
    omega
  · intro p hp
    rw [hBeq, List.mem_singleton] at hp
    subst hp
    exact fun hcontra => hB4 (by simpa using hcontra.symm)

/-- Witness for C6: cycle `[0, 29]`, scenario A transfer on day 10, scenario B
transfer on day 0. -/
theorem claim_C6_transfer_date_ownership_witness :
    buildPeriods "A" 0 29 0 29 [⟨"A", "B", 10⟩] =
      [⟨"A", 0, 9⟩, ⟨"B", 10, 29⟩] := by
  have h := claim_C6_transfer_date_ownership "A" 0 29 0 29 ⟨"A", "B", 10⟩
    (by decide) (by decide) "A" 0 29 0 29 ⟨"A", "B", 0⟩
    (by decide) (by decide) (by decide) (by decide)
  exact h.1.1

/-- C8: a student with no transfers yields exactly one WorkPeriod, equal to
the intersection of the package and cycle windows, attributed to the current
coach, with `amount = (monthlyFee / 30) × daysWorked`; with
`monthlyFee = 1100` and a 30-day window the amount is 1100 within 0.01. -/
theorem claim_C8_no_transfer_amount (c : String) (sS sE cS cE : Int) (fee : ℚ)
    (h : max sS cS ≤ min sE cE) :
    buildPeriods c sS sE cS cE [] = [⟨c, max sS cS, min sE cE⟩] ∧
    periodAmount fee ⟨c, max sS cS, min sE cE⟩ =
      (fee / 30) * ((min sE cE - max sS cS + 1 : Int) : ℚ) ∧
    |periodAmount 1100 ⟨c, 0, 29⟩ - 1100| ≤ 1 / 100 := by
  refine ⟨?_, ?_, ?_⟩
  · unfold buildPeriods buildPeriodsFromSorted
    rw [if_neg (by omega : ¬ max sS cS > min sE cE)]
    rfl
  · rfl
  · unfold periodAmount daysWorkedOf
    norm_num

/-- Witness for C8 with a 30-day window `[0, 29]` and `monthlyFee = 1100`. -/
theorem claim_C8_no_transfer_amount_witness :
    buildPeriods "A" 0 29 0 29 [] = [⟨"A", 0, 29⟩] :=
  (claim_C8_no_transfer_amount "A" 0 29 0 29 1100 (by decide)).1

/-! ## Order (in)dependence of the splitting (C4) -/

/-- Two sorted lists that are permutations of each other and have pairwise
distinct transfer dates are equal. -/
lemma sorted_eq_of_perm_of_distinct :
    ∀ (l₁ l₂ : List Transfer), l₁.Perm l₂ →
      List.Pairwise transferLE l₁ → List.Pairwise transferLE l₂ →
      l₁.Pairwise (fun a b => a.transferDate ≠ b.transferDate) →
      l₁ = l₂
  | [], l₂, hperm, _, _, _ => hperm.nil_eq
  | a :: t₁, [], hperm, _, _, _ => absurd hperm.symm.nil_eq (by simp)
  | a :: t₁, b :: t₂, hperm, hs₁, hs₂, hdist => by
    by_cases hab : a = b
    · subst hab
      have htail := sorted_eq_of_perm_of_distinct t₁ t₂ hperm.cons_inv
        (List.pairwise_cons.mp hs₁).2 (List.pairwise_cons.mp hs₂).2
        (List.pairwise_cons.mp hdist).2
      rw [htail]
    · exfalso
      have ha2 : a ∈ b :: t₂ := hperm.mem_iff.mp (List.mem_cons_self a t₁)
      have ha2' : a ∈ t₂ := by
        rcases List.mem_cons.mp ha2 with h | h
        · exact absurd h hab
        · exact h
      have hb1 : b ∈ a :: t₁ := hperm.mem_iff.mpr (List.mem_cons_self b t₂)
      have hb1' : b ∈ t₁ := by
        rcases List.mem_cons.mp hb1 with h | h
        · exact absurd h.symm hab
        · exact h
      have h1 : transferLE a b := (List.pairwise_cons.mp hs₁).1 b hb1'
      have h2 : transferLE b a := (List.pairwise_cons.mp hs₂).1 a ha2'
      have hne : a.transferDate ≠ b.transferDate := (List.pairwise_cons.mp hdist).1 b hb1'
      unfold transferLE at h1 h2
      omega

lemma sortTransfers_eq_of_perm {l₁ l₂ : List Transfer} (hperm : l₁.Perm l₂)
    (hdist : l₁.Pairwise fun a b => a.transferDate ≠ b.transferDate) :
    sortTransfers l₁ = sortTransfers l₂ := by
  apply sorted_eq_of_perm_of_distinct
  · exact (List.perm_insertionSort transferLE l₁).trans
      (hperm.trans (List.perm_insertionSort transferLE l₂).symm)
  · exact List.sorted_insertionSort transferLE l₁
  · exact List.sorted_insertionSort transferLE l₂
  · exact ((List.perm_insertionSort transferLE l₁).pairwise_iff
      (fun h => h.symm)).mpr hdist

/-- C4 counterexample: the two input orders of the same two same-date
transfers (a permutation of one another) produce different period lists, so
the splitting is not independent of the storage/retrieval order. -/
theorem claim_C4_counterexample :
    List.Perm [(⟨"A", "B", 10⟩ : Transfer), ⟨"B", "C", 10⟩]
      [⟨"B", "C", 10⟩, ⟨"A", "B", 10⟩] ∧
    buildPeriods "A" 0 29 0 29 [⟨"A", "B", 10⟩, ⟨"B", "C", 10⟩] ≠
      buildPeriods "A" 0 29 0 29 [⟨"B", "C", 10⟩, ⟨"A", "B", 10⟩] := by
  constructor
  · exact List.Perm.swap _ _ _
  · decide

/-- C4 (amended): the splitting depends only on the set of transfers when
their `transferDate`s are pairwise distinct — any two retrieval orders of the
same such transfers produce identical WorkPeriods; for same-date transfers the
stable sort keeps the input order of ties, so the result depends on the
retrieval order (see the counterexample). -/
theorem claim_C4_order_independence (c : String) (sS sE cS cE : Int)
    (l₁ l₂ : List Transfer) (hperm : l₁.Perm l₂)
    (hdist : l₁.Pairwise fun a b => a.transferDate ≠ b.transferDate) :
    buildPeriods c sS sE cS cE l₁ = buildPeriods c sS sE cS cE l₂ := by
  unfold buildPeriods
  rw [sortTransfers_eq_of_perm hperm hdist]

/-- Witness for C4 (amended): two distinct-date transfers given in the two
possible orders produce the same periods. -/
theorem claim_C4_order_independence_witness :
    buildPeriods "A" 0 29 0 29 [⟨"A", "B", 5⟩, ⟨"B", "C", 20⟩] =
      buildPeriods "A" 0 29 0 29 [⟨"B", "C", 20⟩, ⟨"A", "B", 5⟩] :=
  claim_C4_order_independence "A" 0 29 0 29
    [⟨"A", "B", 5⟩, ⟨"B", "C", 20⟩] [⟨"B", "C", 20⟩, ⟨"A", "B", 5⟩]
    (List.Perm.swap _ _ _) (by decide)

/-! ## Aggregation invariants -/

lemma creditPeriod_map_coachId (fee : ℚ) (s : Student) (acc : List CoachAcc)
    (p : WorkPeriod) :
    (creditPeriod fee s acc p).map (·.coachId) = acc.map (·.coachId) := by
  unfold creditPeriod
  split
  · rw [List.map_map]
    apply List.map_congr_left
    intro cd _
    dsimp only [Function.comp]
    split <;> rfl
  · rfl

lemma foldl_creditPeriod_map_coachId (fee : ℚ) (s : Student) :
    ∀ (ps : List WorkPeriod) (acc : List CoachAcc),
      ((ps.foldl (creditPeriod fee s) acc).map (·.coachId)) = acc.map (·.coachId)
  | [], _ => rfl
  | p :: ps, acc => by
    rw [List.foldl_cons, foldl_creditPeriod_map_coachId fee s ps _,
      creditPeriod_map_coachId]

lemma finalAcc_map_coachId (fee : ℚ) (cS cE : Int) (history : String → List Transfer) :
    ∀ (entries : List (Student × String)) (acc : List CoachAcc),
      ((entries.foldl (fun acc entry =>
          processStudent fee cS cE acc entry (history entry.1.id)) acc).map (·.coachId))
        = acc.map (·.coachId)
  | [], _ => rfl
  | e :: es, acc => by
    rw [List.foldl_cons, finalAcc_map_coachId fee cS cE history es _]
    unfold processStudent
    rw [foldl_creditPeriod_map_coachId]

lemma initAcc_map_coachId (coaches : List Coach) :
    (initAcc coaches).map (·.coachId) = coaches.map (·.id) := by
  unfold initAcc
  rw [List.map_map]
  rfl

lemma finalAccOf_map_coachId (coaches : List Coach) (history : String → List Transfer)
    (fee : ℚ) (cS cE : Int) :
    (finalAccOf coaches history fee cS cE).map (·.coachId) = coaches.map (·.id) := by
  unfold finalAccOf
  rw [finalAcc_map_coachId, initAcc_map_coachId]

/-- C2 (amended): a period whose coach id is absent from the roster is
silently skipped rather than aborting — the computation always returns a list
of summaries whose coach ids all come from the roster. -/
theorem claim_C2_unknown_coach_dropped (coaches : List Coach)
    (history : String → List Transfer) (fee : ℚ) (cS cE : Int)
    (s : CoachPaymentSummary) (hs : s ∈ computePayments coaches history fee cS cE) :
    s.coachId ∈ coaches.map (·.id) := by
  unfold computePayments at hs
  obtain ⟨cd, hcd, rfl⟩ := List.mem_map.mp hs
  have hcdfin : cd ∈ finalAccOf coaches history fee cS cE := List.mem_of_mem_filter hcd
  have hmem : cd.coachId ∈ (finalAccOf coaches history fee cS cE).map (·.coachId) :=
    List.mem_map_of_mem _ hcdfin
  rw [finalAccOf_map_coachId] at hmem
  exact hmem

/-- Concrete evaluation: one roster coach `"A"`, one student transferred to
the unknown coach `"Z"` on day 10 of the cycle `[0, 29]`, `monthlyFee = 30`. -/
lemma computePayments_dropZ :
    computePayments [⟨"A", "Ada", "L", [⟨"s1", "Stu", "D", 0, 29, 1⟩]⟩]
      (fun i => if i = "s1" then [⟨"A", "Z", 10⟩] else []) 30 0 29 =
      [⟨"A", "Ada L", 1, 10, [⟨"s1", "Stu D", 10, 10⟩]⟩] := by
  have h : computePayments [⟨"A", "Ada", "L", [⟨"s1", "Stu", "D", 0, 29, 1⟩]⟩]
      (fun i => if i = "s1" then [⟨"A", "Z", 10⟩] else []) 30 0 29 =
      [⟨"A", "Ada L", 1, 0 + (30 / 30 * ((10 : Int) : ℚ)),
        [⟨"s1", "Stu D", 30 / 30 * ((10 : Int) : ℚ), 10⟩]⟩] := rfl
  rw [h]
  norm_num

/-- Witness for C2 (amended) at the counterexample input. -/
theorem claim_C2_unknown_coach_dropped_witness :
    (⟨"A", "Ada L", 1, 10, [⟨"s1", "Stu D", 10, 10⟩]⟩ : CoachPaymentSummary).coachId ∈
      ([⟨"A", "Ada", "L", [⟨"s1", "Stu", "D", 0, 29, 1⟩]⟩] : List Coach).map (·.id) :=
  claim_C2_unknown_coach_dropped
    [⟨"A", "Ada", "L", [⟨"s1", "Stu", "D", 0, 29, 1⟩]⟩]
    (fun i => if i = "s1" then [⟨"A", "Z", 10⟩] else []) 30 0 29
    ⟨"A", "Ada L", 1, 10, [⟨"s1", "Stu D", 10, 10⟩]⟩
    (computePayments_dropZ ▸ List.mem_singleton.mpr rfl)

/-- C2 counterexample: a transfer hands the student to coach `"Z"`, absent
from the roster.  The computation does not abort: it returns a partial summary
list in which coach `"A"` is paid for the leading 10 days and the 20 days owed
to `"Z"` are silently dropped. -/
theorem claim_C2_counterexample :
    computePayments [⟨"A", "Ada", "L", [⟨"s1", "Stu", "D", 0, 29, 1⟩]⟩]
      (fun i => if i = "s1" then [⟨"A", "Z", 10⟩] else []) 30 0 29 =
      [⟨"A", "Ada L", 1, 10, [⟨"s1", "Stu D", 10, 10⟩]⟩] :=
  computePayments_dropZ

lemma creditPeriod_breakdown_empty (fee : ℚ) (s : Student) (cid : String)
    (p : WorkPeriod) (hne : p.coachId ≠ cid) (acc : List CoachAcc)
    (h : ∀ cd ∈ acc, cd.coachId = cid → cd.breakdown = []) :
    ∀ cd ∈ creditPeriod fee s acc p, cd.coachId = cid → cd.breakdown = [] := by
  unfold creditPeriod
  split
  · intro cd' hcd' hcid
    obtain ⟨cd, hcd, rfl⟩ := List.mem_map.mp hcd'
    by_cases hc : cd.coachId = p.coachId
    · rw [if_pos hc] at hcid
      exact absurd (hc.symm.trans hcid) hne
    · rw [if_neg hc] at hcid ⊢
      exact h cd hcd hcid
  · exact h

lemma foldl_creditPeriod_breakdown_empty (fee : ℚ) (s : Student) (cid : String) :
    ∀ (ps : List WorkPeriod) (acc : List CoachAcc),
      (∀ p ∈ ps, p.coachId ≠ cid) →
      (∀ cd ∈ acc, cd.coachId = cid → cd.breakdown = []) →
      ∀ cd ∈ ps.foldl (creditPeriod fee s) acc, cd.coachId = cid → cd.breakdown = []
  | [], _, _, h => h
  | p :: ps, acc, hps, h => by
    rw [List.foldl_cons]
    exact foldl_creditPeriod_breakdown_empty fee s cid ps _
      (fun q hq => hps q (List.mem_cons_of_mem p hq))
      (creditPeriod_breakdown_empty fee s cid p (hps p (List.mem_cons_self p ps)) acc h)

lemma finalAcc_breakdown_empty (fee : ℚ) (cS cE : Int)
    (history : String → List Transfer) (cid : String) :
    ∀ (entries : List (Student × String)) (acc : List CoachAcc),
      (∀ e ∈ entries, ∀ p ∈ buildPeriods e.2 e.1.packageStartDate e.1.packageEndDate
          cS cE (history e.1.id), p.coachId ≠ cid) →
      (∀ cd ∈ acc, cd.coachId = cid → cd.breakdown = []) →
      ∀ cd ∈ entries.foldl (fun acc entry =>
          processStudent fee cS cE acc entry (history entry.1.id)) acc,
        cd.coachId = cid → cd.breakdown = []
  | [], _, _, h => h
  | e :: es, acc, hes, h => by
    rw [List.foldl_cons]
    exact finalAcc_breakdown_empty fee cS cE history cid es _
      (fun e' he' => hes e' (List.mem_cons_of_mem e he'))
      (foldl_creditPeriod_breakdown_empty fee e.1 cid _ acc
        (hes e (List.mem_cons_self e es)) h)

lemma initAcc_breakdown_empty (coaches : List Coach) :
    ∀ cd ∈ initAcc coaches, cd.breakdown = [] := by
  intro cd hcd
  obtain ⟨coach, _, rfl⟩ := List.mem_map.mp hcd
  rfl

/-- C9: a coach to whom no WorkPeriod is attributed in the cycle is absent
from the returned summaries, and the summaries' coach ids form a sublist of
the roster's coach ids (roster order is preserved). -/
theorem claim_C9_summary_emission (coaches : List Coach)
    (history : String → List Transfer) (fee : ℚ) (cS cE : Int) (cid : String)
    (hno : ∀ e ∈ allStudentsOf coaches,
      ∀ p ∈ buildPeriods e.2 e.1.packageStartDate e.1.packageEndDate
        cS cE (history e.1.id), p.coachId ≠ cid) :
    cid ∉ (computePayments coaches history fee cS cE).map (·.coachId) ∧
    List.Sublist ((computePayments coaches history fee cS cE).map (·.coachId))
      (coaches.map (·.id)) := by
  constructor
  · intro hmem
    rw [List.mem_map] at hmem
    obtain ⟨summary, hsum, hcid⟩ := hmem
    unfold computePayments at hsum
    obtain ⟨cd, hcd, rfl⟩ := List.mem_map.mp hsum
    have hcdfin : cd ∈ finalAccOf coaches history fee cS cE := List.mem_of_mem_filter hcd
    have hempty : cd.breakdown = [] := by
      refine finalAcc_breakdown_empty fee cS cE history cid
        (allStudentsOf coaches) (initAcc coaches) hno
        (fun cd' hcd' _ => initAcc_breakdown_empty coaches cd' hcd') cd hcdfin ?_
      exact hcid
    have hpred := (List.mem_filter.mp hcd).2
    rw [hempty] at hpred
    simp at hpred
  · unfold computePayments
    rw [List.map_map]
    have hsub : List.Sublist
        ((finalAccOf coaches history fee cS cE).filter
          fun coachData => decide (coachData.breakdown.length > 0))
        (finalAccOf coaches history fee cS cE) := List.filter_sublist _
    have hmapsub := hsub.map (fun (coachData : CoachAcc) => coachData.coachId)
    rw [finalAccOf_map_coachId coaches history fee cS cE] at hmapsub
    exact hmapsub

/-- Witness for C9: roster with coach `"A"` (one student, no transfers) and
coach `"B"` (no students); `"B"` gets no periods and is absent. -/
theorem claim_C9_summary_emission_witness :
    "B" ∉ (computePayments
      [⟨"A", "Ada", "L", [⟨"s1", "Stu", "D", 0, 29, 1⟩]⟩, ⟨"B", "Bob", "E", []⟩]
      (fun _ => []) 30 0 29).map (·.coachId) :=
  (claim_C9_summary_emission
    [⟨"A", "Ada", "L", [⟨"s1", "Stu", "D", 0, 29, 1⟩]⟩, ⟨"B", "Bob", "E", []⟩]
    (fun _ => []) 30 0 29 "B" (by decide)).1

/-- Concrete evaluation: the student is transferred from `"A"` to `"B"` on
day 10 and back to `"A"` on day 20 of the cycle `[0, 29]`; coach `"A"`
receives two separate periods for the same student. -/
lemma computePayments_backAndForth :
    computePayments
      [⟨"A", "Ada", "L", [⟨"s1", "Stu", "D", 0, 29, 1⟩]⟩, ⟨"B", "Bob", "E", []⟩]
      (fun i => if i = "s1" then [⟨"A", "B", 10⟩, ⟨"B", "A", 20⟩] else []) 30 0 29 =
      [⟨"A", "Ada L", 2, 20, [⟨"s1", "Stu D", 10, 10⟩, ⟨"s1", "Stu D", 10, 10⟩]⟩,
       ⟨"B", "Bob E", 1, 10, [⟨"s1", "Stu D", 10, 10⟩]⟩] := by
  have h : computePayments
      [⟨"A", "Ada", "L", [⟨"s1", "Stu", "D", 0, 29, 1⟩]⟩, ⟨"B", "Bob", "E", []⟩]
      (fun i => if i = "s1" then [⟨"A", "B", 10⟩, ⟨"B", "A", 20⟩] else []) 30 0 29 =
      [⟨"A", "Ada L", 2, 0 + (30 / 30 * ((10 : Int) : ℚ)) + (30 / 30 * ((10 : Int) : ℚ)),
        [⟨"s1", "Stu D", 30 / 30 * ((10 : Int) : ℚ), 10⟩,
         ⟨"s1", "Stu D", 30 / 30 * ((10 : Int) : ℚ), 10⟩]⟩,
       ⟨"B", "Bob E", 1, 0 + (30 / 30 * ((10 : Int) : ℚ)),
        [⟨"s1", "Stu D", 30 / 30 * ((10 : Int) : ℚ), 10⟩]⟩] := rfl
  rw [h]
  norm_num

/-- C10: in every returned summary, `activeStudentCount` equals the number of
breakdown items, not the number of distinct students; in the away-and-back
example coach `"A"` has `activeStudentCount = 2` from two periods of the one
student `"s1"`. -/
theorem claim_C10_active_student_count (coaches : List Coach)
    (history : String → List Transfer) (fee : ℚ) (cS cE : Int)
    (s : CoachPaymentSummary) (hs : s ∈ computePayments coaches history fee cS cE) :
    s.activeStudentCount = s.breakdown.length ∧
    computePayments
      [⟨"A", "Ada", "L", [⟨"s1", "Stu", "D", 0, 29, 1⟩]⟩, ⟨"B", "Bob", "E", []⟩]
      (fun i => if i = "s1" then [⟨"A", "B", 10⟩, ⟨"B", "A", 20⟩] else []) 30 0 29 =
      [⟨"A", "Ada L", 2, 20, [⟨"s1", "Stu D", 10, 10⟩, ⟨"s1", "Stu D", 10, 10⟩]⟩,
       ⟨"B", "Bob E", 1, 10, [⟨"s1", "Stu D", 10, 10⟩]⟩] := by
  constructor
  · unfold computePayments at hs
    obtain ⟨cd, hcd, rfl⟩ := List.mem_map.mp hs
    rfl
  · exact computePayments_backAndForth

/-- Witness for C10 at coach `"A"`'s summary of the away-and-back example. -/
theorem claim_C10_active_student_count_witness :
    (⟨"A", "Ada L", 2, 20, [⟨"s1", "Stu D", 10, 10⟩, ⟨"s1", "Stu D", 10, 10⟩]⟩ :
        CoachPaymentSummary).activeStudentCount =
      (⟨"A", "Ada L", 2, 20, [⟨"s1", "Stu D", 10, 10⟩, ⟨"s1", "Stu D", 10, 10⟩]⟩ :
        CoachPaymentSummary).breakdown.length :=
  (claim_C10_active_student_count
    [⟨"A", "Ada", "L", [⟨"s1", "Stu", "D", 0, 29, 1⟩]⟩, ⟨"B", "Bob", "E", []⟩]
    (fun i => if i = "s1" then [⟨"A", "B", 10⟩, ⟨"B", "A", 20⟩] else []) 30 0 29
    ⟨"A", "Ada L", 2, 20, [⟨"s1", "Stu D", 10, 10⟩, ⟨"s1", "Stu D", 10, 10⟩]⟩
    (by rw [computePayments_backAndForth]; exact List.mem_cons_self _ _)).1

/-- C5 counterexample: with `monthlyFee = 0` (not positive) and a valid
`paymentDay`, the computation proceeds and returns a summary instead of
failing with a configuration error. -/
theorem claim_C5_counterexample :
    (computePayments [⟨"A", "Ada", "L", [⟨"s1", "Stu", "D", 0, 29, 1⟩]⟩]
        (fun _ => []) 0 0 29).map
      (fun s => (s.coachId, s.activeStudentCount,
        s.breakdown.map fun b => (b.studentId, b.daysWorked))) =
      [("A", 1, [("s1", 30)])] := rfl

/-- C5 (amended): the code performs no validation of `paymentDay` or
`monthlyFee`: the payment computation proceeds unchanged for any non-positive
fee (producing summaries, here with 30 days worked), and the cycle resolution
clamps an out-of-range `paymentDay` (here 32) instead of failing. -/
theorem claim_C5_no_validation (fee : ℚ) (hfee : fee ≤ 0) :
    (computePayments [⟨"A", "Ada", "L", [⟨"s1", "Stu", "D", 0, 29, 1⟩]⟩]
        (fun _ => []) fee 0 29).map
      (fun s => (s.coachId, s.activeStudentCount,
        s.breakdown.map fun b => (b.studentId, b.daysWorked))) =
      [("A", 1, [("s1", 30)])] ∧
    resolveCycle ⟨2024, 2, 15⟩ 32 = (⟨2024, 2, 1⟩, ⟨2024, 2, 31⟩) :=
  ⟨rfl, by decide⟩

/-- Witness for C5 (amended) at `fee = 0`. -/
theorem claim_C5_no_validation_witness :
    ((0 : ℚ) ≤ 0) ∧
    resolveCycle ⟨2024, 2, 15⟩ 32 = (⟨2024, 2, 1⟩, ⟨2024, 2, 31⟩) :=
  ⟨le_refl 0, (claim_C5_no_validation 0 (le_refl 0)).2⟩

end DesignBoard
